import Mathlib

/-
Verification of the dopri8 solver module (src/diffrax/solver/dopri8.py).

The module defines the Dormand–Prince 8(7) Butcher tableau `_dopri8_tableau`
(exact rational constants) and the dense-output interpolation class
`_Dopri8Interpolation` (decimal coefficient matrices `eval_coeffs` /
`diff_coeffs` and the methods `evaluate` and `derivative`).

Embedding choices:
* All tableau constants and interpolation coefficients are exact rationals
  (the decimal literals of the source are finite decimals, embedded exactly).
* The ODE state is modelled componentwise as a single scalar in a field `K`:
  every operation of the source (linear combination of stage derivatives,
  polynomial evaluation in the normalised time) acts elementwise on the state
  array, so a scalar component is the faithful per-component embedding.
  Claims about exact arithmetic are stated at `K = ℚ`; the claim about the
  analytic derivative is stated at `K = ℝ`.
* `jnp.polyval` is Horner evaluation over the coefficient list, embedded as a
  left fold.  `frozenarray`/`np.array` data are embedded as lists (tableau
  rows) and as a `Fin 14`-indexed family of rows (`eval_coeffs`), matching the
  source shape annotations (`k : Array["order":14, "state"]`).
-/

namespace Dopri8

/-- The `alpha` (time-fraction) column of `_dopri8_tableau`, 13 entries,
transcribed as exact rationals from the source. -/
def alpha : List ℚ :=
  [1 / 18, 1 / 12, 1 / 8, 5 / 16, 3 / 8, 59 / 400, 93 / 200,
   5490023248 / 9719169821, 13 / 20, 1201146811 / 1299019798, 1, 1, 1]

/-- The `beta` (lower-triangular stage-weight) rows of `_dopri8_tableau`,
13 rows, row `i` holding `i + 1` entries, transcribed from the source. -/
def beta : List (List ℚ) :=
  [[1 / 18],
   [1 / 48, 1 / 16],
   [1 / 32, 0, 3 / 32],
   [5 / 16, 0, -75 / 64, 75 / 64],
   [3 / 80, 0, 0, 3 / 16, 3 / 20],
   [29443841 / 614563906, 0, 0, 77736538 / 692538347, -28693883 / 1125000000,
    23124283 / 1800000000],
   [16016141 / 946692911, 0, 0, 61564180 / 158732637, 22789713 / 633445777,
    545815736 / 2771057229, -180193667 / 1043307555],
   [39632708 / 573591083, 0, 0, -433636366 / 683701615, -421739975 / 2616292301,
    100302831 / 723423059, 790204164 / 839813087, 800635310 / 3783071287],
   [246121993 / 1340847787, 0, 0, -37695042795 / 15268766246,
    -309121744 / 1061227803, -12992083 / 490766935, 6005943493 / 2108947869,
    393006217 / 1396673457, 123872331 / 1001029789],
   [-1028468189 / 846180014, 0, 0, 8478235783 / 508512852,
    1311729495 / 1432422823, -10304129995 / 1701304382,
    -48777925059 / 3047939560, 15336726248 / 1032824649,
    -45442868181 / 3398467696, 3065993473 / 597172653],
   [185892177 / 718116043, 0, 0, -3185094517 / 667107341,
    -477755414 / 1098053517, -703635378 / 230739211, 5731566787 / 1027545527,
    5232866602 / 850066563, -4093664535 / 808688257, 3962137247 / 1805957418,
    65686358 / 487910083],
   [403863854 / 491063109, 0, 0, -5068492393 / 434740067,
    -411421997 / 543043805, 652783627 / 914296604, 11173962825 / 925320556,
    -13158990841 / 6184727034, 3936647629 / 1978049680, -160528059 / 685178525,
    248638103 / 1413531060, 0],
   [14005451 / 335480064, 0, 0, 0, 0, -59238493 / 1068277825,
    181606767 / 758867731, 561292985 / 797845732, -1041891430 / 1371343529,
    760417239 / 1151165299, 118820643 / 751138087, -528747749 / 2220607170,
    1 / 4]]

/-- The `c_sol` (solution-weight) column of `_dopri8_tableau`, 14 entries,
transcribed from the source. -/
def c_sol : List ℚ :=
  [14005451 / 335480064, 0, 0, 0, 0, -59238493 / 1068277825,
   181606767 / 758867731, 561292985 / 797845732, -1041891430 / 1371343529,
   760417239 / 1151165299, 118820643 / 751138087, -528747749 / 2220607170,
   1 / 4, 0]

/-- The `c_error` (error-weight) column of `_dopri8_tableau`, 14 entries,
each written as the same difference of rationals as in the source. -/
def c_error : List ℚ :=
  [14005451 / 335480064 - 13451932 / 455176623, 0, 0, 0, 0,
   -59238493 / 1068277825 - -808719846 / 976000145,
   181606767 / 758867731 - 1757004468 / 5645159321,
   561292985 / 797845732 - 656045339 / 265891186,
   -1041891430 / 1371343529 - -3867574721 / 1518517206,
   760417239 / 1151165299 - 465885868 / 322736535,
   118820643 / 751138087 - 53011238 / 667516719,
   -528747749 / 2220607170 - 2 / 45, 1 / 4, 0]

/-- Horner evaluation `jnp.polyval p x` of the polynomial with coefficient
list `p` (leading coefficient first) at `x`. -/
def polyval {K : Type} [Field K] (p : List K) (x : K) : K :=
  p.foldl (fun acc c => acc * x + c) 0

/-- The `eval_coeffs` matrix of `_Dopri8Interpolation`: 14 rows of 6
polynomial coefficients, the decimal literals of the source embedded as exact
rationals (hence exactly representable in any field of characteristic 0). -/
def eval_coeffs (K : Type) [Field K] : Fin 14 → List K :=
  ![[-6.3448349392860401388, 22.1396504998094068976, -30.0610568289666450593,
     19.9990069333683970610, -6.6910181737837595697, 1],
    [0, 0, 0, 0, 0, 0],
    [0, 0, 0, 0, 0, 0],
    [0, 0, 0, 0, 0, 0],
    [0, 0, 0, 0, 0, 0],
    [-39.6107919852202505218, 116.4422149550342161651, -121.4999627731334642623,
     52.2273532792945524050, -7.6142658045872677172, 0],
    [20.3761213808791436958, -67.1451318825957197185, 83.1721004639847717481,
     -46.8919164181093621583, 10.7281392630428866124, 0],
    [7.3347098826795362023, -16.5672243527496524646, 9.5724507555993664382,
     -0.1890893225010595467, 0.5526637063753648783, 0],
    [32.8801774352459155182, -89.9916014847245016028, 87.8406057677205645007,
     -35.7075975946222072821, 4.2186562625665153803, 0],
    [-10.1588990526426760954, 22.6237489648532849093, -17.4152107770762969005,
     6.2736448083240352160, -0.6627209125361597559, 0],
    [-12.5401268098782561200, 32.2362340167355370113, -28.5903289514790976966,
     10.3160881272450748458, -1.2636789001135462218, 0],
    [29.5553001484516038033, -82.1020315488359848644, 81.6630950584341412934,
     -34.7650769866611817349, 5.4106037898590422230, 0],
    [-41.7923486424390588923, 116.2662185791119533462, -114.9375291377009418170,
     47.7457971078225540396, -7.0321379067945741781, 0],
    [20.3006925822100825485, -53.9020777466385396792, 50.2558364226176017553,
     -19.0082099341608028453, 2.3537586759714983486, 0]]

/-- The `diff_coeffs` matrix of `_Dopri8Interpolation`:
`diff_coeffs = eval_coeffs * np.array([6, 5, 4, 3, 2, 1])`, i.e. each row of
`eval_coeffs` multiplied elementwise by `[6, 5, 4, 3, 2, 1]`. -/
def diff_coeffs (K : Type) [Field K] : Fin 14 → List K :=
  fun i => List.zipWith (· * ·) (eval_coeffs K i) [6, 5, 4, 3, 2, 1]

/-- The `_Dopri8Interpolation` class: step endpoints `t0 < t1` (inherited from
`AbstractLocalInterpolation`), states `y0`, `y1` (the latter unused by the
methods, kept for API compatibility as in the source) and the 14 stage
derivatives `k`, all with the state modelled componentwise as a scalar. -/
structure _Dopri8Interpolation (K : Type) where
  t0 : K
  t1 : K
  y0 : K
  y1 : K
  k : Fin 14 → K

/-- The method `_Dopri8Interpolation.evaluate`.  With one time (second argument `none`)
it normalises `t` to `τ = (t − t0) / (t1 − t0)`, evaluates each row polynomial
at `τ`, multiplies by `τ`, and contracts against the stage derivatives:
`y0 + (polyval(eval_coeffs, τ) * τ) @ k`.  With two times it returns the
difference of the two single-time evaluations, exactly as the source's
`return self.evaluate(t1) - self.evaluate(t0)`. -/
def evaluate {K : Type} [Field K] (I : _Dopri8Interpolation K) (t : K)
    (t1q : Option K) : K :=
  match t1q with
  | some s => evaluate I s none - evaluate I t none
  | none =>
      I.y0 + ∑ i : Fin 14,
        polyval (eval_coeffs K i) ((t - I.t0) / (I.t1 - I.t0)) *
          ((t - I.t0) / (I.t1 - I.t0)) * I.k i
termination_by t1q.elim 0 fun _ => 1
decreasing_by all_goals simp

/-- The method `_Dopri8Interpolation.derivative`: `_rt = 1 / (t1 − t0)`,
`τ = (t − t0) * _rt`, result `polyval(diff_coeffs, τ) @ (k * _rt)`. -/
def derivative {K : Type} [Field K] (I : _Dopri8Interpolation K) (t : K) : K :=
  ∑ i : Fin 14,
    polyval (diff_coeffs K i) ((t - I.t0) * (1 / (I.t1 - I.t0))) *
      (I.k i * (1 / (I.t1 - I.t0)))

/-- Modelled from the spec: the Stepper lives in `runge_kutta.py`, which is not
under `src/`.  Spec §4.2 step 3 forms the accepted endpoint state as
`y1 = y0 + dt * Σ_i solution_weights[i] * stage_derivatives[i]`; the stage
derivatives handed to the interpolation carry the `dt` factor (the
interpolation contracts them with O(1) polynomial values), so componentwise
`y1 = y0 + Σ_i c_sol[i] * k[i]`. -/
def accepted_y1 (y0 : ℚ) (k : Fin 14 → ℚ) : ℚ :=
  y0 + ∑ i : Fin 14, c_sol.getD i 0 * k i

/-- Modelled from the spec: spec §4.2 step 2 forms the state at which a
stage's derivative is evaluated as `y0` plus the stage's `beta`-row-weighted
combination of the earlier stage derivatives (`dt` folded into the stored
stage derivatives as in `accepted_y1`); entries beyond the row length are
absent, i.e. zero. -/
def stage_state (y0 : ℚ) (row : List ℚ) (k : Fin 14 → ℚ) : ℚ :=
  y0 + ∑ i : Fin 14, row.getD i 0 * k i

/-- A concrete interpolant over ℚ used to witness hypotheses:
`t0 = 0`, `t1 = 1`, `y0 = 0`, `y1` the accepted endpoint state for unit stage
derivatives. -/
def sampleInterp : _Dopri8Interpolation ℚ :=
  ⟨0, 1, 0, accepted_y1 0 fun _ => 1, fun _ => 1⟩

/-- A second concrete interpolant over ℚ, identical to `sampleInterp` except
for the stored `y1`. -/
def sampleInterpAltY1 : _Dopri8Interpolation ℚ :=
  ⟨0, 1, 0, 5, fun _ => 1⟩

/-- A concrete interpolant over ℝ used to witness hypotheses. -/
def sampleInterpR : _Dopri8Interpolation ℝ :=
  ⟨0, 1, 0, 0, fun _ => 1⟩

/-- C3: For every interpolant with `t1 ≠ t0`, the single-argument `evaluate`
at exactly `t0` returns `y0` exactly: each per-stage polynomial value is
multiplied by `τ = (t − t0)/(t1 − t0)`, which is `0` at `t = t0`, so every
stage contribution vanishes. -/
theorem evaluate_at_t0_exact (I : _Dopri8Interpolation ℚ)
    (_h : I.t1 ≠ I.t0) : evaluate I I.t0 none = I.y0 := by
  rw [evaluate]
  simp

/-- Witness for C3 at the concrete interpolant `sampleInterp`. -/
theorem evaluate_at_t0_exact_witness :
    evaluate sampleInterp sampleInterp.t0 none = sampleInterp.y0 :=
  evaluate_at_t0_exact sampleInterp one_ne_zero

/-- C4: every row of `beta` sums to the matching entry of `alpha` within the
tableau's design precision `1e-12` (rows 0–4 are exact; the later rows of the
published rational coefficients agree to about `1e-17`). -/
theorem beta_row_sum_eq_alpha (i : Fin 13) :
    |(beta.getD i []).sum - alpha.getD i 0| ≤ 1 / 10 ^ 12 := by
  fin_cases i <;> norm_num [beta, alpha, abs_le]

/-- C5 counterexample: the solution-weight column does not sum to exactly 1
in exact rational arithmetic. -/
theorem c_sol_sum_ne_one : c_sol.sum ≠ 1 := by
  norm_num [c_sol]

/-- C5 (amended): the solution-weight column `c_sol` sums to 1 to the
tableau's design precision (within `1e-12`; the exact rational defect is about
`-3.7e-18`), but not exactly. -/
theorem c_sol_sum_near_one : |c_sol.sum - 1| ≤ 1 / 10 ^ 12 := by
  norm_num [c_sol, abs_le]

/-- C6 counterexample: the solution-weight column of the tableau does not have
13 entries. -/
theorem c_sol_length_ne_13 : c_sol.length ≠ 13 := by decide

/-- C6 (amended): the method's arrays have 14 entries, not 13: `c_sol`,
`c_error`, the stage-derivative array `k` and the row count of `eval_coeffs`
all have length 14 (the 13 stages of the published tableau plus one extra
derivative evaluation, at `(t1, y1)`, used by the dense output), while `alpha`
has 13 entries and `beta` 13 rows; each `eval_coeffs` row holds 6 polynomial
coefficients. -/
theorem stage_array_lengths :
    c_sol.length = 14 ∧ c_error.length = 14 ∧ alpha.length = 13 ∧
      beta.length = 13 ∧ (∀ i : Fin 14, (eval_coeffs ℚ i).length = 6) ∧
      ∀ I : _Dopri8Interpolation ℚ, (List.ofFn I.k).length = 14 := by
  refine ⟨rfl, rfl, rfl, rfl, ?_, ?_⟩
  · intro i
    fin_cases i <;> rfl
  · intro I
    simp

/-- C7: for every interpolant with `t1 ≠ t0`, the two-argument `evaluate`
returns exactly the difference of the two single-argument evaluations. -/
theorem evaluate_two_times_eq_sub (I : _Dopri8Interpolation ℚ)
    (_h : I.t1 ≠ I.t0) (a b : ℚ) :
    evaluate I a (some b) = evaluate I b none - evaluate I a none := by
  rw [evaluate]

/-- Witness for C7 at the concrete interpolant `sampleInterp`, `a = 0`,
`b = 1`. -/
theorem evaluate_two_times_eq_sub_witness :
    evaluate sampleInterp 0 (some 1) =
      evaluate sampleInterp 1 none - evaluate sampleInterp 0 none :=
  evaluate_two_times_eq_sub sampleInterp one_ne_zero 0 1

/-- C9: the last row of `beta` equals the first 13 entries of `c_sol`
elementwise exactly, the last entry of `alpha` is exactly 1, and consequently
the state at which the final stage's derivative is evaluated (modelled from
the spec's stage formula) is exactly the step's accepted endpoint state `y1`:
the final stage derivative is the vector field at `(t1, y1)`. -/
theorem final_stage_evaluated_at_y1 :
    beta.getD 12 [] = c_sol.take 13 ∧ alpha.getD 12 0 = 1 ∧
      ∀ (y0 : ℚ) (k : Fin 14 → ℚ),
        stage_state y0 (beta.getD 12 []) k = accepted_y1 y0 k := by
  refine ⟨rfl, rfl, fun y0 k => ?_⟩
  unfold stage_state accepted_y1
  have hpt : (∑ i : Fin 14, (beta.getD 12 []).getD (i : ℕ) 0 * k i)
      = ∑ i : Fin 14, c_sol.getD (i : ℕ) 0 * k i :=
    Finset.sum_congr rfl fun i _ => by fin_cases i <;> rfl
  rw [hpt]

/-- C10: `evaluate` (one- and two-argument forms) and `derivative` do not
depend on the stored `y1` field: two interpolants agreeing on `t0`, `t1`,
`y0`, `k` give identical results at every query time, whatever their `y1`. -/
theorem outputs_ignore_y1 (I J : _Dopri8Interpolation ℚ)
    (h0 : I.t0 = J.t0) (h1 : I.t1 = J.t1) (hy : I.y0 = J.y0)
    (hk : I.k = J.k) (t u : ℚ) :
    evaluate I t none = evaluate J t none ∧
      evaluate I t (some u) = evaluate J t (some u) ∧
      derivative I t = derivative J t := by
  obtain ⟨a0, a1, b0, b1, kk⟩ := I
  obtain ⟨a0', a1', b0', b1', kk'⟩ := J
  simp only at h0 h1 hy hk
  subst h0
  subst h1
  subst hy
  subst hk
  refine ⟨?_, ?_, ?_⟩ <;> simp [evaluate, derivative]

/-- Witness for C10: `sampleInterp` and `sampleInterpAltY1` differ only in
`y1` and give identical outputs at `t = 0`, `u = 1`. -/
theorem outputs_ignore_y1_witness :
    evaluate sampleInterp 0 none = evaluate sampleInterpAltY1 0 none ∧
      evaluate sampleInterp 0 (some 1) = evaluate sampleInterpAltY1 0 (some 1) ∧
      derivative sampleInterp 0 = derivative sampleInterpAltY1 0 :=
  outputs_ignore_y1 sampleInterp sampleInterpAltY1 rfl rfl rfl rfl 0 1

/-- Each endpoint defect — the row sum of `eval_coeffs` (the row polynomial
evaluated at `τ = 1`, times `τ = 1`) minus the matching `c_sol` weight — is at
most `1e-12` in absolute value. -/
theorem endpoint_defect_le (i : Fin 14) :
    |polyval (eval_coeffs ℚ i) 1 * 1 - c_sol.getD (i : ℕ) 0| ≤ 1 / 10 ^ 12 := by
  fin_cases i <;> norm_num [eval_coeffs, polyval, c_sol, abs_le]

/-- C1: for an interpolant built from a step (`t0 < t1`, endpoint state
`y1 = accepted_y1 y0 k` as the step produces it — modelled from the spec,
`runge_kutta.py` not being under `src/` — and stage derivatives bounded by
`M`), the single-argument `evaluate` at `t1` returns `y1` to numerical
precision: `y0` plus the contraction of the `eval_coeffs` row polynomials at
`τ = 1` against `k` differs from `y1` by at most `1.4e-11 · M`. -/
theorem evaluate_at_t1_eq_y1 (I : _Dopri8Interpolation ℚ) (M : ℚ)
    (hlt : I.t0 < I.t1) (hy1 : I.y1 = accepted_y1 I.y0 I.k)
    (hk : ∀ i, |I.k i| ≤ M) :
    |evaluate I I.t1 none - I.y1| ≤ 14 / 10 ^ 12 * M := by
  have hne : I.t1 - I.t0 ≠ 0 := sub_ne_zero.mpr hlt.ne'
  have hM : 0 ≤ M := le_trans (abs_nonneg (I.k 0)) (hk 0)
  rw [evaluate, hy1, accepted_y1, div_self hne]
  have key : I.y0 + (∑ i : Fin 14, polyval (eval_coeffs ℚ i) 1 * 1 * I.k i)
      - (I.y0 + ∑ i : Fin 14, c_sol.getD (i : ℕ) 0 * I.k i)
      = ∑ i : Fin 14,
          (polyval (eval_coeffs ℚ i) 1 * 1 - c_sol.getD (i : ℕ) 0) * I.k i := by
    have hsw : I.y0 + (∑ i : Fin 14, polyval (eval_coeffs ℚ i) 1 * 1 * I.k i)
        - (I.y0 + ∑ i : Fin 14, c_sol.getD (i : ℕ) 0 * I.k i)
        = (∑ i : Fin 14, polyval (eval_coeffs ℚ i) 1 * 1 * I.k i)
          - ∑ i : Fin 14, c_sol.getD (i : ℕ) 0 * I.k i := by
      ring
    rw [hsw, ← Finset.sum_sub_distrib]
    exact Finset.sum_congr rfl fun i _ => by ring
  rw [key]
  calc |∑ i : Fin 14,
          (polyval (eval_coeffs ℚ i) 1 * 1 - c_sol.getD (i : ℕ) 0) * I.k i|
      ≤ ∑ i : Fin 14,
          |(polyval (eval_coeffs ℚ i) 1 * 1 - c_sol.getD (i : ℕ) 0) * I.k i| :=
        Finset.abs_sum_le_sum_abs _ _
    _ ≤ ∑ _i : Fin 14, 1 / 10 ^ 12 * M :=
        Finset.sum_le_sum fun i _ => by
          rw [abs_mul]
          exact mul_le_mul (endpoint_defect_le i) (hk i) (abs_nonneg _)
            (by norm_num)
    _ = 14 / 10 ^ 12 * M := by
        rw [Finset.sum_const, Finset.card_univ, Fintype.card_fin,
          nsmul_eq_mul]
        push_cast
        ring

/-- Witness for C1 at the concrete interpolant `sampleInterp` with unit stage
derivatives and `M = 1`. -/
theorem evaluate_at_t1_eq_y1_witness :
    |evaluate sampleInterp 1 none - sampleInterp.y1| ≤ 14 / 10 ^ 12 * 1 :=
  evaluate_at_t1_eq_y1 sampleInterp 1 one_pos rfl fun _ => abs_one.le

/-- The contribution of one `eval_coeffs` row (a six-coefficient Horner
polynomial in `τ = (s − t0)/(t1 − t0)`, multiplied by `τ` and by the stage
derivative `kv`) has, at every point `x`, the derivative that the matching
`diff_coeffs` row (the coefficients multiplied by `[6, 5, 4, 3, 2, 1]`)
computes, with the `1/(t1 − t0)` chain-rule factor on the stage derivative. -/
theorem hasDerivAt_row (a b c d0 e f t0v t1v kv x : ℝ) :
    HasDerivAt
      (fun s : ℝ => polyval [a, b, c, d0, e, f] ((s - t0v) / (t1v - t0v)) *
        ((s - t0v) / (t1v - t0v)) * kv)
      (polyval (List.zipWith (· * ·) [a, b, c, d0, e, f] [6, 5, 4, 3, 2, 1])
        ((x - t0v) * (1 / (t1v - t0v))) * (kv * (1 / (t1v - t0v)))) x := by
  have hτ : HasDerivAt (fun s : ℝ => (s - t0v) / (t1v - t0v))
      (1 / (t1v - t0v)) x := by
    simpa using ((hasDerivAt_id x).sub_const t0v).div_const (t1v - t0v)
  set u := (x - t0v) / (t1v - t0v) with hu
  have h1 : HasDerivAt (fun v : ℝ => a * v + b) a u := by
    simpa using ((hasDerivAt_id u).const_mul a).add_const b
  have h2 := (h1.mul (hasDerivAt_id u)).add_const c
  have h3 := (h2.mul (hasDerivAt_id u)).add_const d0
  have h4 := (h3.mul (hasDerivAt_id u)).add_const e
  have h5 := (h4.mul (hasDerivAt_id u)).add_const f
  have h6 := (h5.mul (hasDerivAt_id u)).mul_const kv
  have h7 := h6.comp x hτ
  simp only [polyval, List.foldl, List.zipWith, zero_mul, zero_add, id_eq]
    at h7 ⊢
  convert h7 using 1
  simp only [hu]
  ring

/-- C2: for every interpolant, `derivative` is the exact analytic derivative
with respect to `t` of the single-argument `evaluate`: `diff_coeffs` is
exactly the coefficient vector of `d/dτ` of `τ` times the row polynomial, and
the `1/(t1 − t0)` chain-rule factor is folded into the stage-derivative
contraction, so the relationship is an exact algebraic identity. -/
theorem derivative_is_deriv_of_evaluate (I : _Dopri8Interpolation ℝ)
    (_h : I.t1 ≠ I.t0) (t : ℝ) :
    HasDerivAt (fun s => evaluate I s none) (derivative I t) t := by
  simp only [evaluate, derivative, diff_coeffs]
  refine HasDerivAt.const_add I.y0 (HasDerivAt.sum fun i _ => ?_)
  fin_cases i <;> exact hasDerivAt_row _ _ _ _ _ _ _ _ _ _

/-- Witness for C2 at the concrete interpolant `sampleInterpR`, `t = 0`. -/
theorem derivative_is_deriv_of_evaluate_witness :
    HasDerivAt (fun s => evaluate sampleInterpR s none)
      (derivative sampleInterpR 0) 0 :=
  derivative_is_deriv_of_evaluate sampleInterpR one_ne_zero 0

/-- Horner evaluation of a polynomial built by a left fold over a coefficient
list agrees with the same left fold over the evaluations. -/
theorem eval_foldl_polynomial (c : List ℝ) (acc : Polynomial ℝ) (x : ℝ) :
    Polynomial.eval x
        (List.foldl (fun A a => A * Polynomial.X + Polynomial.C a) acc c)
      = List.foldl (fun A a => A * x + a) (Polynomial.eval x acc) c := by
  induction c generalizing acc with
  | nil => rfl
  | cons a as ih => simp [List.foldl, ih]

/-- C8: for every interpolant with `t1 ≠ t0`, both `evaluate` and
`derivative` are total polynomial functions of the query time: there are
polynomials `p`, `q` with `evaluate t = p(t)` and `derivative t = q(t)` for
every real `t` — no bounds check is performed, no error is possible, and any
`t` outside `[t0, t1]` receives the value of the same global polynomial, the
extrapolation. -/
theorem evaluate_derivative_total (I : _Dopri8Interpolation ℝ)
    (_h : I.t1 ≠ I.t0) :
    ∃ p q : Polynomial ℝ,
      (∀ t : ℝ, evaluate I t none = Polynomial.eval t p) ∧
      ∀ t : ℝ, derivative I t = Polynomial.eval t q := by
  refine ⟨Polynomial.C I.y0 + ∑ i : Fin 14,
      (List.foldl (fun A a => A * Polynomial.X + Polynomial.C a) 0
          (eval_coeffs ℝ i) * Polynomial.X * Polynomial.C (I.k i)).comp
        ((Polynomial.X - Polynomial.C I.t0) *
          Polynomial.C ((I.t1 - I.t0)⁻¹)),
    ∑ i : Fin 14,
      (List.foldl (fun A a => A * Polynomial.X + Polynomial.C a) 0
          (diff_coeffs ℝ i)).comp
        ((Polynomial.X - Polynomial.C I.t0) *
          Polynomial.C (1 / (I.t1 - I.t0))) *
        Polynomial.C (I.k i * (1 / (I.t1 - I.t0))),
    fun t => ?_, fun t => ?_⟩
  · rw [evaluate]
    simp only [Polynomial.eval_add, Polynomial.eval_C,
      Polynomial.eval_finset_sum, Polynomial.eval_comp, Polynomial.eval_mul,
      Polynomial.eval_sub, Polynomial.eval_X, Polynomial.eval_zero,
      eval_foldl_polynomial, polyval]
    congr 1
  · rw [derivative]
    simp only [Polynomial.eval_finset_sum, Polynomial.eval_comp,
      Polynomial.eval_mul, Polynomial.eval_sub, Polynomial.eval_C,
      Polynomial.eval_X, Polynomial.eval_zero, eval_foldl_polynomial, polyval]

/-- Witness for C8 at the concrete interpolant `sampleInterpR`. -/
theorem evaluate_derivative_total_witness :
    ∃ p q : Polynomial ℝ,
      (∀ t : ℝ, evaluate sampleInterpR t none = Polynomial.eval t p) ∧
      ∀ t : ℝ, derivative sampleInterpR t = Polynomial.eval t q :=
  evaluate_derivative_total sampleInterpR one_ne_zero

end Dopri8
